import Mathlib

/-!
Verification development for the elementwise kernel specialization engine of
`pycuda/elementwise.py` (class `ElementwiseSourceModule`).

The Python code is shallowly embedded:

* machine integers are modelled as `Nat`/`Int` (the emitted CUDA code uses
  `unsigned int` for flat positions and `long` for per-dimension indices and
  per-array offsets; the equivalence theorems restrict positions to the
  shape's total extent, where the machine arithmetic agrees with `Nat`);
* fallible Python code (raised exceptions) is modelled with `Except PyErr`;
* the argument list handed to `create_key` is specialised to its array
  (`VectorArg`) arguments: scalar arguments are never inspected by
  `_precalc_array_info` or by the key/traversal planning, so positions below
  are positions within the list of array arguments, and the resolved
  `shape_arg_index` is likewise a position in that list.
-/

set_option autoImplicit false

/-- Python exception values raised by the embedded code. -/
inductive PyErr : Type
  | attributeError (attr : String)
  | shapeMismatch (canonical : Option (List Nat)) (got : List Nat)
  | invalidGeometry (grid block : Nat × Nat × Nat)
  | assertionError (msg : String)
  | indexError
  | typeError
deriving Repr, DecidableEq

instance {ε α : Type} [DecidableEq ε] [DecidableEq α] : DecidableEq (Except ε α) := fun a b =>
  match a, b with
  | .ok x, .ok y =>
      if h : x = y then .isTrue (by rw [h]) else
        .isFalse (by intro hc; injection hc; exact h (by assumption))
  | .error x, .error y =>
      if h : x = y then .isTrue (by rw [h]) else
        .isFalse (by intro hc; injection hc; exact h (by assumption))
  | .ok _, .error _ => .isFalse (by intro hc; exact Except.noConfusion hc)
  | .error _, .ok _ => .isFalse (by intro hc; exact Except.noConfusion hc)

/-! ### The emitted index computations (slow / array-relative strided path)

`directIndex` is the semantics of the emitted `loop_inds_calc` block
(`elementwise.py` lines 374-387): repeated modulo/divide decomposition of a
flat position against the canonical shape, innermost dimension first.

`blockStep` is the Python computation at lines 284-289: `tmpnumthreads`
starts at `numthreads = block[0]*grid[0]` and for each dimension
`newstep = tmpnumthreads % shape[dim]; tmpnumthreads //= shape[dim]`
(the divisor is read before `block_step[dim]` is overwritten).

`odoCarry`/`odoInc` are the semantics of the emitted `loop_inds_inc` block
(lines 389-417): each array's flat offset is first advanced by the sum of its
`BLOCKELEMSTRIDE` constants, then each dimension index is advanced by its
`BLOCK_STEP` constant; for every dimension but the last, if the running index
reached or exceeded the dimension size, the size is subtracted, the next
dimension's index is incremented, and the offset is corrected by
`ELEMSTRIDE[dim+1] - DIMELEMSTRIDE[dim]`
(where `DIMELEMSTRIDE[dim] = ELEMSTRIDE[dim] * SHAPE[dim]`).  Since the
arrays' offsets are updated independently by identical code, one
representative element-stride vector `estrides` is carried through; the
per-dimension constants are read positionally (head of the current tail). -/

def directIndex : List Nat → Nat → List Nat
  | [], _ => []
  | s :: rest, pos => (pos % s) :: directIndex rest (pos / s)

def blockStep : List Nat → Nat → List Nat
  | [], _ => []
  | s :: rest, nt => (nt % s) :: blockStep rest (nt / s)

/-- Flat offset of an index vector under an element-stride vector:
the emitted `loop_inds_calc` accumulates `INDEX_d * ELEMSTRIDE_d`. -/
def offsetOf (estrides : List Int) (inds : List Nat) : Int :=
  (List.zipWith (fun e i => e * (i : Int)) estrides inds).sum

/-- Carry-propagation part of the emitted `loop_inds_inc` block: dimension
indices are advanced by the block step (plus the carry coming in from the
previous dimension), and for every dimension but the last a single
conditional subtract-and-carry is emitted, together with the offset
correction `ELEMSTRIDE[dim+1] - DIMELEMSTRIDE[dim]`. -/
def odoCarry : List Nat → List Nat → List Int → List Nat → Int → Nat → List Nat × Int
  | [], _, _, _, off, _ => ([], off)
  | [_], bstep, _, inds, off, c => ([inds.headI + bstep.headI + c], off)
  | s :: ss, bstep, es, inds, off, c =>
      let v := inds.headI + bstep.headI + c
      if s ≤ v then
        let r := odoCarry ss bstep.tail es.tail inds.tail
          (off + es.tail.headI - (s : Int) * es.headI) 1
        ((v - s) :: r.1, r.2)
      else
        let r := odoCarry ss bstep.tail es.tail inds.tail off 0
        (v :: r.1, r.2)

/-- One full iteration of the emitted `loop_inds_inc` block: the offset is
advanced by the sum of the `BLOCKELEMSTRIDE` constants
(`ELEMSTRIDE[d] * BLOCK_STEP[d]`), then the indices go through the
per-dimension add-and-carry chain. -/
def odoInc (shape bstep : List Nat) (estrides : List Int) (st : List Nat × Int) :
    List Nat × Int :=
  odoCarry shape bstep estrides st.1 (st.2 + offsetOf estrides bstep) 0

/-- Iterated odometer update, one application per outer loop iteration. -/
def odoIter (shape bstep : List Nat) (estrides : List Int) : Nat → List Nat × Int → List Nat × Int
  | 0, st => st
  | k + 1, st => odoInc shape bstep estrides (odoIter shape bstep estrides k st)

/-! ### Layout classification (`_precalc_array_info`, lines 98-141)

An array argument is modelled by the attributes the classifier reads;
`Option` fields model attribute presence (`hasattr`), so reading a missing
attribute raises `AttributeError` exactly as in Python.  The `f_contiguous`
and `c_contiguous` flags are the externally supplied numpy layout flags. -/

structure ArrArg where
  shape? : Option (List Nat)
  strides? : Option (List Int)
  itemsize? : Option Nat
  fContiguous : Bool
  cContiguous : Bool
deriving Repr, DecidableEq, Inhabited

/-- Python attribute access: raises `AttributeError` when absent. -/
def getAttr {α : Type} (o : Option α) (attr : String) : Except PyErr α :=
  match o with
  | none => .error (.attributeError attr)
  | some v => .ok v

/-- Line 120: `arg.strides = tuple((np.array(curshape) > 1) * arg.strides)`,
i.e. force the stride to zero wherever the dimension size is not `> 1`. -/
def normStrides (curshape : List Nat) (strides : List Int) : List Int :=
  List.zipWith (fun s st => if 1 < s then st else 0) curshape strides

/-- Running state of the classification loop (lines 101-104), plus the
argument list as mutated so far (line 120 rewrites `arg.strides` in place). -/
structure PrecalcState where
  contigmatch : Bool
  arrayspecificinds : Bool
  shape : Option (List Nat)
  order : Option Char
  updated : List ArrArg
deriving Repr, DecidableEq

/-- One iteration of the classification loop (lines 106-137) for the array
argument at position `i`. -/
def precalcStep (sai : Option Nat) (i : Nat) (arg : ArrArg) (st : PrecalcState) :
    Except PyErr PrecalcState :=
  if st.arrayspecificinds = false then
    .ok { st with updated := st.updated ++ [arg] }
  else
    match arg.shape? with
    | none => .ok { st with arrayspecificinds := false, updated := st.updated ++ [arg] }
    | some curshape =>
        match getAttr arg.strides? "strides" with
        | .error e => .error e
        | .ok strides =>
          let arg' := { arg with strides? := some (normStrides curshape strides) }
          let triple :=
            if st.contigmatch then
              let curorder : Char :=
                if arg.fContiguous then 'F' else if arg.cContiguous then 'C' else 'N'
              let cm1 := decide (curorder ≠ 'N')
              match st.shape with
              | none => (cm1, some curshape, some curorder)
              | some sh => (cm1 && decide (st.order = some curorder), some sh, st.order)
            else (st.contigmatch, st.shape, st.order)
          if sai = none ∧ triple.2.1 ≠ some curshape then
            .error (.shapeMismatch triple.2.1 curshape)
          else
            .ok { contigmatch := triple.1
                  arrayspecificinds := st.arrayspecificinds
                  shape := if sai = some i then some curshape else triple.2.1
                  order := triple.2.2
                  updated := st.updated ++ [arg'] }

def precalcLoop (sai : Option Nat) : Nat → List ArrArg → PrecalcState → Except PyErr PrecalcState
  | _, [], st => .ok st
  | i, a :: rest, st =>
      match precalcStep sai i a st with
      | .error e => .error e
      | .ok st' => precalcLoop sai (i + 1) rest st'

/-- Result tuple of `_precalc_array_info` (line 141), together with the
argument list as mutated by the stride normalization (create_key later reads
the shape argument's strides from it). -/
structure PrecalcOut where
  contigmatch : Bool
  arrayspecificinds : Bool
  shape : Option (List Nat)
  arrayitemstrides : List (Nat × List Int)
  updatedArgs : List ArrArg
deriving Repr, DecidableEq

/-- Line 139: `arrayitemstrides = tuple((arg.itemsize, arg.strides) ...)`;
`itemsize` is read before `strides` for each argument. -/
def collectItemStrides : List ArrArg → Except PyErr (List (Nat × List Int))
  | [] => .ok []
  | a :: rest =>
      match getAttr a.itemsize? "itemsize" with
      | .error e => .error e
      | .ok isz =>
          match getAttr a.strides? "strides" with
          | .error e => .error e
          | .ok strs =>
              match collectItemStrides rest with
              | .error e => .error e
              | .ok tl => .ok ((isz, strs) :: tl)

/-- `_precalc_array_info(args, array_arg_inds, shape_arg_index)`
(lines 98-141), specialised to the list of array arguments. -/
def precalcArrayInfo (args : List ArrArg) (sai : Option Nat) : Except PyErr PrecalcOut :=
  match precalcLoop sai 0 args ⟨true, true, none, none, []⟩ with
  | .error e => .error e
  | .ok st =>
      match collectItemStrides st.updated with
      | .error e => .error e
      | .ok ais => .ok ⟨st.contigmatch, st.arrayspecificinds, st.shape, ais, st.updated⟩

/-! ### Module state, cache key and signature (`__init__`, `create_key`)

`_init_args` (line 93) is the 7-tuple whose `repr` is the template identity;
`repr` is injective on such tuples of strings, so the tuple itself stands in
for the repr string. -/

structure InitArgs where
  argNames : List String
  argDecls : String
  operation : String
  funcname : String
  preamble : String
  loopPrep : String
  afterLoop : String
deriving Repr, DecidableEq

/-- Constructed `ElementwiseSourceModule` state (after `__init__`):
`shapeArgIndex` is the resolved `self._shape_arg_index` (always a concrete
index, defaulting to the first array argument), `order` is the stored
dimension-ordering policy string. -/
structure ElwiseModule where
  initArgs : InitArgs
  doRange : Bool
  doIndices : Bool
  debug : Bool
  order : String
  arrayArgNames : List String
  shapeArgIndex : Nat
deriving Repr, DecidableEq

/-- Cache key returned by `create_key`: the fast path returns the template
identity string alone (line 152); the slow path returns the 9-tuple
(line 183). -/
structure Precalc where
  initArgs : InitArgs
  shape : Option (List Nat)
  contigmatch : Bool
  arrayspecificinds : Bool
  arrayitemstrides : Option (List (Nat × List Int))
  argDecls : Option String
  doReverse : Option Bool
  grid : Option (Nat × Nat × Nat)
  block : Option (Nat × Nat × Nat)
deriving Repr, DecidableEq

inductive EKey : Type
  | fast (initArgsRepr : InitArgs)
  | slow (key : Precalc)
deriving Repr, DecidableEq

/-- `np.argmin(np.abs(strides))`: position of the first minimal absolute
value. -/
def argminAbs (l : List Int) : Nat :=
  match l.enum.foldl
      (fun best p =>
        match best with
        | none => some p
        | some q => if p.2.natAbs < q.2.natAbs then some p else some q)
      none with
  | none => 0
  | some q => q.1

/-- Dimension-ordering decision (lines 173-179): reverse traversal for
order `C`; for order `K`, reverse when the index of the minimum absolute
stride of the shape-defining argument lies beyond `ndim // 2`. -/
def computeDoReverse (m : ElwiseModule) (updArgs : List ArrArg) (ndim : Nat) :
    Except PyErr Bool :=
  if m.order = "C" then .ok true
  else if m.order = "K" then
    match updArgs.get? m.shapeArgIndex with
    | none => .error .indexError
    | some a =>
        match getAttr a.strides? "strides" with
        | .error e => .error e
        | .ok strides => .ok (decide (ndim / 2 < argminAbs strides))
  else .ok false

/-- `create_key(grid, block, *args)` (lines 144-185).  Returns the pair
(key, precalc-tuple-for-create_source) exactly as the Python does: on the
fast path the key collapses to the template identity and the tuple carries
`None` in the five slow-path slots (line 153); on the slow path the key and
the tuple coincide (line 185). -/
def createKey (m : ElwiseModule) (grid block : Nat × Nat × Nat) (args : List ArrArg) :
    Except PyErr (EKey × Precalc) :=
  match precalcArrayInfo args (some m.shapeArgIndex) with
  | .error e => .error e
  | .ok r =>
      if (r.contigmatch || !r.arrayspecificinds) && !m.doIndices then
        .ok (.fast m.initArgs,
          ⟨m.initArgs, r.shape, r.contigmatch, r.arrayspecificinds,
            none, none, none, none, none⟩)
      else if grid.2.1 ≠ 1 ∨ block.2.1 ≠ 1 ∨ block.2.2 ≠ 1 then
        .error (.invalidGeometry grid block)
      else
        match r.shape with
        | none => .error .typeError
        | some sh =>
            match computeDoReverse m r.updatedArgs sh.length with
            | .error e => .error e
            | .ok doRev =>
                let p : Precalc :=
                  ⟨m.initArgs, some sh, r.contigmatch, r.arrayspecificinds,
                    some r.arrayitemstrides, some m.initArgs.argDecls,
                    some doRev, some grid, some block⟩
                .ok (.slow p, p)

/-! ### Traversal planning and source emission (`create_source`, lines 187-547)

The per-array traversal record built at lines 290-311.  `inforef` is the
alias slot: `None` makes the argument own an index variable, `some j` makes
it reuse (via an emitted `#define`) the index variable of the argument at
position `j`. -/

structure ArgInfo where
  name : String
  elemstrides : List Int
  dimelemstrides : List Int
  blockelemstrides : List Int
  inforef : Option Nat
deriving Repr, DecidableEq, Inhabited

/-- Lines 301-304: `for i, arrayarginfo in enumerate(arrayarginfos): if
elemstrides == arrayarginfo[1]: inforef = i` — the running index walks the
accumulated infos, keeping the last match. -/
def findInfoRefAux (es : List Int) : Nat → Option Nat → List ArgInfo → Option Nat
  | _, r, [] => r
  | i, r, info :: rest =>
      findInfoRefAux es (i + 1) (if info.elemstrides = es then some i else r) rest

def findInfoRef (acc : List ArgInfo) (es : List Int) : Option Nat :=
  findInfoRefAux es 0 none acc

/-- Lines 291-300: per-array element strides (byte strides reversed when the
traversal order is reversed, zero-padded to `ndim`, floor-divided by the
item size), the size-weighted strides and the block-step-weighted strides. -/
def mkArgInfo (doRev : Bool) (ndim : Nat) (shapearr blockstep : List Nat)
    (acc : List ArgInfo) (name : String) (itemsize : Nat) (argStrides : List Int) :
    ArgInfo :=
  let strides0 := if doRev then argStrides.reverse else argStrides
  let strides := strides0 ++ List.replicate (ndim - strides0.length) 0
  let es := strides.map (fun st => Int.fdiv st (itemsize : Int))
  { name := name
    elemstrides := es
    dimelemstrides := List.zipWith (fun e (s : Nat) => e * (s : Int)) es shapearr
    blockelemstrides := List.zipWith (fun e (b : Nat) => e * (b : Int)) es blockstep
    inforef := findInfoRef acc es }

/-- The accumulation loop at lines 290-311 over `(name, itemsize, strides)`
triples. -/
def buildArgInfos (doRev : Bool) (ndim : Nat) (shapearr blockstep : List Nat) :
    List (String × Nat × List Int) → List ArgInfo → List ArgInfo
  | [], acc => acc
  | (name, isz, strides) :: rest, acc =>
      buildArgInfos doRev ndim shapearr blockstep rest
        (acc ++ [mkArgInfo doRev ndim shapearr blockstep acc name isz strides])

/-- Element strides of the info at position `i` (default when out of range). -/
def esAt (infos : List ArgInfo) (i : Nat) : List Int :=
  (infos.getD i default).elemstrides

/-- Alias slot of the info at position `i`. -/
def refAt (infos : List ArgInfo) (i : Nat) : Option Nat :=
  (infos.getD i default).inforef

/-- Follow the emitted `#define`-alias chain (each alias refers to an
earlier position) until an index-variable owner is reached. -/
def resolveIdx (infos : List ArgInfo) : Nat → Nat → Nat
  | 0, i => i
  | fuel + 1, i =>
      match (infos.getD i default).inforef with
      | none => i
      | some j => resolveIdx infos fuel j

/-- The position whose index variable the argument at position `i`
ultimately uses. -/
def canonOf (infos : List ArgInfo) (i : Nat) : Nat :=
  resolveIdx infos (i + 1) i

/-- The full `arrayarginfos` list of a slow-path call (line 290 starts from
the empty list). -/
def elwiseArgInfos (doRev : Bool) (ndim : Nat) (shapearr blockstep : List Nat)
    (items : List (String × Nat × List Int)) : List ArgInfo :=
  buildArgInfos doRev ndim shapearr blockstep items []

/-- Well-formedness of an `arrayarginfos` list: every alias slot points to
an earlier entry with the same element strides, and an owner (alias slot
`None`) has no earlier entry with its element strides.  This is the shape
the accumulation loop at lines 290-311 guarantees. -/
def InfosWF (infos : List ArgInfo) : Prop :=
  ∀ i, i < infos.length →
    (∀ j, refAt infos i = some j → j < i ∧ esAt infos j = esAt infos i) ∧
    (refAt infos i = none → ∀ j, j < i → esAt infos j ≠ esAt infos i)

/-- Structured content of the emitted kernel source.

Modelled from the spec: the `DeferredSource`-based text assembly lives in
`pycuda/deferred.py` (not part of the analysed sources); per §4.4 the emitted
text is a fixed rendering of the template texts plus, on the slow path, the
traversal plan constants.  This structure records every datum the renderer
interpolates (the rendering is injective in it), in particular the branch
decisions taken at lines 196 (fast/slow), 198/208/463 (`do_range`),
203 (`arrayspecificinds`), 324/359 (`do_indices`) and 419 (`debug`). -/
inductive SourceRepr : Type
  | fast (indtype : String) (aliasNames : List String) (doRange : Bool)
      (operation preamble funcname argDecls loopPrep afterLoop : String)
  | slow (ndim : Nat) (shape blockstep : List Nat) (infos : List ArgInfo)
      (doIndices doRange debug : Bool)
      (operation preamble funcname argDecls loopPrep afterLoop : String)
deriving Repr, DecidableEq

/-- `create_source(precalc, grid, block, *args)` (lines 187-547): branch on
`contigmatch and not do_indices` (line 196); otherwise build the traversal
plan (`zip` with a `None` stride tuple raises `TypeError`, as does
`len(None)` for a missing shape; a `None` `do_reverse` is simply falsy). -/
def createSource (m : ElwiseModule) (p : Precalc) (grid block : Nat × Nat × Nat) :
    Except PyErr SourceRepr :=
  if p.contigmatch && !m.doIndices then
    .ok (.fast (if m.doRange then "long" else "unsigned")
      (if p.arrayspecificinds then m.arrayArgNames else [])
      m.doRange m.initArgs.operation m.initArgs.preamble m.initArgs.funcname
      m.initArgs.argDecls m.initArgs.loopPrep m.initArgs.afterLoop)
  else
    match p.arrayitemstrides with
    | none => .error .typeError
    | some ais =>
        match p.shape with
        | none => .error .typeError
        | some sh0 =>
            let numthreads := block.1 * grid.1
            let doRev := p.doReverse = some true
            let sh := if doRev then sh0.reverse else sh0
            let bs := blockStep sh numthreads
            let items := List.zipWith (fun n its => (n, its.1, its.2))
              m.arrayArgNames ais
            let infos := buildArgInfos doRev sh0.length sh bs items []
            .ok (.slow sh0.length sh bs infos m.doIndices m.doRange m.debug
              m.initArgs.operation m.initArgs.preamble m.initArgs.funcname
              m.initArgs.argDecls m.initArgs.loopPrep m.initArgs.afterLoop)

/-! ### Construction (`__init__`, lines 69-96) -/

/-- Kernel parameter descriptor; the declarator text is opaque here.
Modelled from the spec: `VectorArg`/`ScalarArg` and their `declarator()`
live in `pycuda.tools` (not part of the analysed sources); per §3 a
descriptor is a kind (scalar or array), a name and a declared type. -/
structure ArgDescr where
  name : String
  decl : String
  isVector : Bool
deriving Repr, DecidableEq, Inhabited

/-- A Python value as it occurs in the asserted tuple at line 81. -/
inductive PyVal : Type
  | bool (b : Bool)
  | str (s : String)
deriving Repr, DecidableEq

/-- Python truthiness of a tuple: a tuple is truthy iff it is nonempty. -/
def pyTruthyTuple (t : List PyVal) : Bool := !t.isEmpty

/-- Python substring containment `needle in hay` (the empty string is
contained in everything). -/
def strContains (hay needle : String) : Bool :=
  needle.isEmpty || 2 ≤ (hay.splitOn needle).length

/-- The expression asserted at line 81:
`(order in 'CFK', "order must be F, C, or K")` — a two-element tuple. -/
def orderAssertTuple (order : String) : List PyVal :=
  [.bool (strContains "CFK" order), .str "order must be F, C, or K"]

/-- `ElementwiseSourceModule.__init__` (lines 69-96): run the order assert,
join the declarators, default `array_arg_inds` to the `VectorArg` positions,
resolve `shape_arg_index` to `array_arg_inds[0]` when not given (an empty
`array_arg_inds` raises `IndexError` there), and freeze the `_init_args`
tuple.  (Descriptor positions listed in an explicit `array_arg_inds` are
assumed in range, as in any well-formed call.) -/
def mkElwiseModule (arguments : List ArgDescr)
    (operation funcname preamble loopPrep afterLoop : String)
    (doRange doIndices : Bool) (shapeArgIndex : Option Nat)
    (arrayArgInds : Option (List Nat)) (order : String) (debug : Bool) :
    Except PyErr ElwiseModule :=
  if pyTruthyTuple (orderAssertTuple order) = false then
    .error (.assertionError "order must be F, C, or K")
  else
    let argDecls := String.intercalate ", " (arguments.map (fun a => a.decl))
    let inds : List Nat :=
      match arrayArgInds with
      | none =>
          arguments.enum.filterMap
            (fun p : Nat × ArgDescr => if p.2.isVector then some p.1 else none)
      | some l => l
    let resolved : Option Nat :=
      match shapeArgIndex with
      | none => inds.get? 0
      | some i => some i
    match resolved with
    | none => .error .indexError
    | some sai =>
        .ok { initArgs :=
                ⟨arguments.map (fun a : ArgDescr => a.name), argDecls, operation, funcname,
                  preamble, loopPrep, afterLoop⟩
              doRange := doRange
              doIndices := doIndices
              debug := debug
              order := order
              arrayArgNames := inds.map (fun i => (arguments.getD i default).name)
              shapeArgIndex := sai }

/-- Recognise an `AssertionError` outcome. -/
def isAssertErr {α : Type} : Except PyErr α → Bool
  | .error (.assertionError _) => true
  | _ => false

/-- Recognise a successful outcome. -/
def exceptOk {α : Type} : Except PyErr α → Bool
  | .ok _ => true
  | _ => false

/-- Recognise a successful slow-path key. -/
def isSlowOk : Except PyErr (EKey × Precalc) → Bool
  | .ok (.slow _, _) => true
  | _ => false

/-- Recognise a shape-mismatch failure. -/
def isShapeMismatch {α : Type} : Except PyErr α → Bool
  | .error (.shapeMismatch _ _) => true
  | _ => false

/-- Indtype chosen by a fast-path source (distinguishes emitted sources). -/
def fastIndtypeOf : Except PyErr SourceRepr → Option String
  | .ok (.fast it _ _ _ _ _ _ _ _) => some it
  | _ => none

/-! ### Concrete instances used by the witnesses and counterexamples -/

/-- A 1-D contiguous array: shape `(4,)`, strides `(8,)`, itemsize 8. -/
def cArr : ArrArg := ⟨some [4], some [8], some 8, true, true⟩

/-- A 1-D contiguous array of a different shape `(7,)`. -/
def cArr7 : ArrArg := ⟨some [7], some [56], some 8, true, true⟩

/-- A 2-D non-contiguous array: shape `(2, 2)`, strides `(4, 16)`. -/
def ncArr : ArrArg := ⟨some [2, 2], some [4, 16], some 4, false, false⟩

/-- A C-contiguous `(4, 4)` array of float64. -/
def arr44 : ArrArg := ⟨some [4, 4], some [32, 8], some 8, false, true⟩

/-- A C-contiguous `(4, 3)` array of float64. -/
def arr43 : ArrArg := ⟨some [4, 3], some [24, 8], some 8, false, true⟩

/-- A bare device pointer: no shape/strides/itemsize metadata. -/
def bareArr : ArrArg := ⟨none, none, none, false, false⟩

def iaEx : InitArgs := ⟨["z"], "float *z", "z[z_i] = 0", "kernel", "", "", ""⟩

/-- Module with `do_range=False` (otherwise default flags, order `F`). -/
def modA : ElwiseModule :=
  ⟨iaEx, false, false, false, "F", ["z"], 0⟩

/-- Same construction arguments as `modA` but `do_range=True`. -/
def modB : ElwiseModule :=
  ⟨iaEx, true, false, false, "F", ["z"], 0⟩

/-- Module requesting per-dimension indices (`do_indices=True`). -/
def modI : ElwiseModule :=
  ⟨iaEx, false, true, false, "F", ["z"], 0⟩

/-- The fast-path precalc tuple produced for `modA`/`modB` on `cArr`. -/
def pFastEx : Precalc :=
  ⟨iaEx, some [4], true, true, none, none, none, none, none⟩

/-! ### Basic lemmas about the index computations -/

theorem directIndex_length (shape : List Nat) (pos : Nat) :
    (directIndex shape pos).length = shape.length := by
  induction shape generalizing pos with
  | nil => rfl
  | cons s rest ih => simp [directIndex, ih]

theorem blockStep_eq_directIndex (shape : List Nat) (nt : Nat) :
    blockStep shape nt = directIndex shape nt := by
  induction shape generalizing nt with
  | nil => rfl
  | cons s rest ih => simp [blockStep, directIndex, ih]

theorem offsetOf_cons (e : Int) (es : List Int) (i : Nat) (inds : List Nat) :
    offsetOf (e :: es) (i :: inds) = e * (i : Int) + offsetOf es inds := by
  simp [offsetOf]

theorem offsetOf_nil (inds : List Nat) : offsetOf [] inds = 0 := by
  simp [offsetOf]

theorem headI_cons_eq {α : Type} [Inhabited α] (a : α) (l : List α) : (a :: l).headI = a := rfl

theorem tail_cons_eq {α : Type} (a : α) (l : List α) : (a :: l).tail = l := rfl

theorem odoCarry_cons (s s₂ : Nat) (ss : List Nat) (bstep : List Nat) (es : List Int)
    (inds : List Nat) (off : Int) (c : Nat) :
    odoCarry (s :: s₂ :: ss) bstep es inds off c =
      if s ≤ inds.headI + bstep.headI + c then
        ((inds.headI + bstep.headI + c - s) ::
            (odoCarry (s₂ :: ss) bstep.tail es.tail inds.tail
              (off + es.tail.headI - (s : Int) * es.headI) 1).1,
          (odoCarry (s₂ :: ss) bstep.tail es.tail inds.tail
              (off + es.tail.headI - (s : Int) * es.headI) 1).2)
      else
        ((inds.headI + bstep.headI + c) ::
            (odoCarry (s₂ :: ss) bstep.tail es.tail inds.tail off 0).1,
          (odoCarry (s₂ :: ss) bstep.tail es.tail inds.tail off 0).2) := rfl

theorem odoCarry_single (s : Nat) (bstep : List Nat) (es : List Int)
    (inds : List Nat) (off : Int) (c : Nat) :
    odoCarry [s] bstep es inds off c = ([inds.headI + bstep.headI + c], off) := rfl

/-- The carry chain implements exact mixed-radix digit addition: feeding it
the digit decompositions of `p` and of `q` (plus an incoming carry `c ≤ 1`)
produces the digit decomposition of `p + q + c`, provided the sum stays
inside the shape's total extent. -/
theorem odoCarry_digits :
    ∀ (shape : List Nat) (es : List Int) (p q c : Nat) (off : Int),
      (∀ s ∈ shape, 0 < s) → c ≤ 1 →
      p + q + c < shape.prod →
      (odoCarry shape (directIndex shape q) es (directIndex shape p) off c).1
        = directIndex shape (p + q + c) := by
  intro shape
  induction shape with
  | nil => intro es p q c off _ _ _; rfl
  | cons s ss ih =>
      intro es p q c off hpos hc hlt
      have hs : 0 < s := hpos s (by simp)
      have hpr : p % s < s := Nat.mod_lt _ hs
      have hqr : q % s < s := Nat.mod_lt _ hs
      cases ss with
      | nil =>
          have hlt' : p + q + c < s := by simpa [List.prod_cons] using hlt
          have hp : p < s := lt_of_le_of_lt (by omega) hlt'
          have hq : q < s := lt_of_le_of_lt (by omega) hlt'
          rw [show directIndex [s] q = [q % s] from rfl,
              show directIndex [s] p = [p % s] from rfl,
              show directIndex [s] (p + q + c) = [(p + q + c) % s] from rfl,
              odoCarry_single]
          simp only [headI_cons_eq]
          rw [Nat.mod_eq_of_lt hp, Nat.mod_eq_of_lt hq, Nat.mod_eq_of_lt hlt']
      | cons s₂ ss' =>
          have hposs : ∀ x ∈ s₂ :: ss', 0 < x := fun x hx => hpos x (by simp [hx])
          have hmul : s * (p / s + q / s) = s * (p / s) + s * (q / s) := Nat.mul_add s _ _
          have h1 := Nat.div_add_mod p s
          have h2 := Nat.div_add_mod q s
          have hdecomp : p + q + c = s * (p / s + q / s) + (p % s + q % s + c) := by omega
          have hmod : (p + q + c) % s = (p % s + q % s + c) % s := by
            rw [hdecomp]; simp [Nat.mul_add_mod]
          have hdiv : (p + q + c) / s = p / s + q / s + (p % s + q % s + c) / s := by
            rw [hdecomp]; rw [Nat.mul_add_div hs]
          have hltdiv : (p + q + c) / s < (s₂ :: ss').prod := by
            rw [Nat.div_lt_iff_lt_mul hs]
            have hx : p + q + c < s * (s₂ :: ss').prod := by
              simpa [List.prod_cons] using hlt
            rw [Nat.mul_comm] at hx
            exact hx
          rw [show directIndex (s :: s₂ :: ss') q
                = q % s :: directIndex (s₂ :: ss') (q / s) from rfl,
              show directIndex (s :: s₂ :: ss') p
                = p % s :: directIndex (s₂ :: ss') (p / s) from rfl,
              show directIndex (s :: s₂ :: ss') (p + q + c)
                = (p + q + c) % s :: directIndex (s₂ :: ss') ((p + q + c) / s) from rfl,
              odoCarry_cons]
          simp only [headI_cons_eq, tail_cons_eq]
          by_cases hcarry : s ≤ p % s + q % s + c
          · have hv2 : p % s + q % s + c < 2 * s := by omega
            have hvm : (p % s + q % s + c) % s = p % s + q % s + c - s := by
              rw [Nat.mod_eq_sub_mod hcarry]
              exact Nat.mod_eq_of_lt (by omega)
            have hvd : (p % s + q % s + c) / s = 1 := by
              rw [Nat.div_eq_sub_div hs hcarry]
              rw [Nat.div_eq_of_lt (by omega)]
            rw [if_pos hcarry]
            dsimp only
            have hrec := ih es.tail (p / s) (q / s) 1
              (off + es.tail.headI - (s : Int) * es.headI) hposs (le_refl 1)
              (by rw [hdiv, hvd] at hltdiv; exact hltdiv)
            rw [hrec, hmod, hvm, hdiv, hvd]
          · push_neg at hcarry
            have hvm : (p % s + q % s + c) % s = p % s + q % s + c :=
              Nat.mod_eq_of_lt hcarry
            have hvd : (p % s + q % s + c) / s = 0 := Nat.div_eq_of_lt hcarry
            rw [if_neg (by omega : ¬ s ≤ p % s + q % s + c)]
            dsimp only
            have hrec := ih es.tail (p / s) (q / s) 0 off hposs (by omega)
              (by rw [hdiv, hvd] at hltdiv; simpa using hltdiv)
            rw [hrec, hmod, hvm, hdiv, hvd]

/-- Offset bookkeeping of the carry chain: the updates applied to each
array's flat offset track `offsetOf` of the evolving index vector exactly
(the incoming carry's head-stride contribution is accounted for by the
caller, whence the `c * es.headI` correction term). -/
theorem odoCarry_off :
    ∀ (shape bstep : List Nat) (es : List Int) (inds : List Nat) (off : Int) (c : Nat),
      es.length = shape.length → bstep.length = shape.length → inds.length = shape.length →
      (odoCarry shape bstep es inds off c).2
        = off + offsetOf es (odoCarry shape bstep es inds off c).1
            - offsetOf es inds - offsetOf es bstep - (c : Int) * es.headI := by
  intro shape
  induction shape with
  | nil =>
      intro bstep es inds off c hes hb hi
      match bstep, es, inds, hes, hb, hi with
      | [], [], [], _, _, _ => simp [odoCarry, offsetOf]
  | cons s ss ih =>
      intro bstep es inds off c hes hb hi
      match bstep, es, inds, hes, hb, hi with
      | b :: bs, e :: es', i :: inds', hes, hb, hi =>
        cases ss with
        | nil =>
            match bs, es', inds', hes, hb, hi with
            | [], [], [], _, _, _ =>
                rw [odoCarry_single]
                simp only [headI_cons_eq, offsetOf_cons, offsetOf_nil]
                push_cast
                ring
        | cons s₂ ss' =>
            have hes' : es'.length = (s₂ :: ss').length := by simpa using hes
            have hb' : bs.length = (s₂ :: ss').length := by simpa using hb
            have hi' : inds'.length = (s₂ :: ss').length := by simpa using hi
            rw [odoCarry_cons]
            simp only [headI_cons_eq, tail_cons_eq]
            by_cases hcarry : s ≤ i + b + c
            · rw [if_pos hcarry]
              dsimp only
              have hrec := ih bs es' inds' (off + es'.headI - (s : Int) * e) 1 hes' hb' hi'
              simp only [offsetOf_cons]
              rw [hrec]
              have hcast : ((i + b + c - s : Nat) : Int) = (i : Int) + b + c - s := by
                push_cast [Nat.cast_sub hcarry]
                ring
              rw [hcast]
              push_cast
              ring
            · rw [if_neg hcarry]
              dsimp only
              have hrec := ih bs es' inds' off 0 hes' hb' hi'
              simp only [offsetOf_cons]
              rw [hrec]
              push_cast
              ring

/-- One odometer iteration advances the (indices, offset) pair from the
decomposition of `p` to the decomposition of `p + q`, as long as `p + q`
stays within the shape's total extent. -/
theorem odoInc_step (shape : List Nat) (es : List Int) (q p : Nat)
    (hpos : ∀ s ∈ shape, 0 < s) (hlen : es.length = shape.length)
    (h : p + q < shape.prod) :
    odoInc shape (directIndex shape q) es
        (directIndex shape p, offsetOf es (directIndex shape p))
      = (directIndex shape (p + q), offsetOf es (directIndex shape (p + q))) := by
  have hdig := odoCarry_digits shape es p q 0
    (offsetOf es (directIndex shape p) + offsetOf es (directIndex shape q))
    hpos (by omega) (by omega)
  have hoff := odoCarry_off shape (directIndex shape q) es (directIndex shape p)
    (offsetOf es (directIndex shape p) + offsetOf es (directIndex shape q)) 0
    hlen (directIndex_length shape q) (directIndex_length shape p)
  unfold odoInc
  refine Prod.ext ?_ ?_
  · simpa using hdig
  · simp only
    rw [hoff, hdig]
    simp
    ring

/-- C1. Equivalence of incremental and direct index computation: starting
from the initial modulo/divide decomposition of `start`, iterating the
emitted odometer update (with the block step derived at lines 284-289 from
the thread count) reproduces, at every step `k` whose flat position
`start + k * nt` lies within the shape's total extent, exactly the
per-dimension indices and the per-array flat offset obtained by direct
modulo/divide decomposition of `start + k * nt`. -/
theorem odometer_matches_direct (shape : List Nat) (estrides : List Int)
    (nt start k : Nat)
    (hpos : ∀ s ∈ shape, 0 < s) (hlen : estrides.length = shape.length)
    (hin : start + k * nt < shape.prod) :
    odoIter shape (blockStep shape nt) estrides k
        (directIndex shape start, offsetOf estrides (directIndex shape start))
      = (directIndex shape (start + k * nt),
         offsetOf estrides (directIndex shape (start + k * nt))) := by
  induction k with
  | zero => simp [odoIter]
  | succ k ih =>
      have hk : start + k * nt < shape.prod := by
        refine lt_of_le_of_lt ?_ hin
        have : k * nt ≤ (k + 1) * nt := Nat.mul_le_mul_right nt (by omega)
        omega
      rw [odoIter, ih hk, blockStep_eq_directIndex]
      have hstep := odoInc_step shape estrides nt (start + k * nt) hpos hlen
        (by have : start + k * nt + nt = start + (k + 1) * nt := by ring
            rw [this]; exact hin)
      rw [hstep]
      have : start + k * nt + nt = start + (k + 1) * nt := by ring
      rw [this]

theorem odometer_matches_direct_witness :
    (∀ s ∈ [3, 4], 0 < s) ∧ ([(1 : Int), 3]).length = [3, 4].length ∧
      2 + 1 * 5 < [3, 4].prod ∧
      odoIter [3, 4] (blockStep [3, 4] 5) [(1 : Int), 3] 1
          (directIndex [3, 4] 2, offsetOf [(1 : Int), 3] (directIndex [3, 4] 2))
        = (directIndex [3, 4] (2 + 1 * 5),
           offsetOf [(1 : Int), 3] (directIndex [3, 4] (2 + 1 * 5))) :=
  ⟨by decide, by decide, by decide,
    odometer_matches_direct [3, 4] [(1 : Int), 3] 5 2 1 (by decide) (by decide) (by decide)⟩

/-- C5. Block-step derivation is mixed-radix decomposition of the lane
count: for each dimension `d`, the computed block step equals the thread
count floor-divided by the product of the sizes of the dimensions below `d`,
reduced modulo the size of dimension `d`. -/
theorem blockStep_mixed_radix (shape : List Nat) (nt d : Nat)
    (hpos : ∀ s ∈ shape, 0 < s) (hd : d < shape.length) :
    (blockStep shape nt).getD d 0 = (nt / (shape.take d).prod) % shape.getD d 0 := by
  induction shape generalizing nt d with
  | nil => simp at hd
  | cons s rest ih =>
      cases d with
      | zero => simp [blockStep]
      | succ d =>
          have hd' : d < rest.length := by simpa using hd
          have hpos' : ∀ x ∈ rest, 0 < x := fun x hx => hpos x (by simp [hx])
          rw [show blockStep (s :: rest) nt = (nt % s) :: blockStep rest (nt / s) from rfl]
          rw [List.getD_cons_succ, List.getD_cons_succ, ih (nt / s) d hpos' hd']
          rw [show (s :: rest).take (d + 1) = s :: rest.take d from rfl]
          rw [List.prod_cons, Nat.div_div_eq_div_mul]

theorem blockStep_mixed_radix_witness :
    (∀ s ∈ [3, 4], 0 < s) ∧ 1 < [3, 4].length ∧
      (blockStep [3, 4] 7).getD 1 0 = (7 / ([3, 4].take 1).prod) % [3, 4].getD 1 0 :=
  ⟨by decide, by decide, blockStep_mixed_radix [3, 4] 7 1 (by decide) (by decide)⟩

/-- C10. The block step is bounded by the shape: for positive dimension
sizes and a positive thread count, each dimension's block step lies in
`[0, shape[d])`; consequently, within one odometer iteration a dimension's
running index (previously `< shape[d]`, advanced by the block step plus at
most one incoming carry) stays below `2 * shape[d]`, so the emitted single
conditional subtract-and-carry restores it to `[0, shape[d])`. -/
theorem blockStep_getD_lt (shape : List Nat) (nt d : Nat)
    (hpos : ∀ s ∈ shape, 0 < s) (hd : d < shape.length) :
    (blockStep shape nt).getD d 0 < shape.getD d 0 := by
  induction shape generalizing nt d with
  | nil => simp at hd
  | cons s rest ih =>
      cases d with
      | zero =>
          have hs : 0 < s := hpos s (by simp)
          simpa [blockStep] using Nat.mod_lt nt hs
      | succ d =>
          have hd' : d < rest.length := by simpa using hd
          have hpos' : ∀ x ∈ rest, 0 < x := fun x hx => hpos x (by simp [hx])
          simpa [blockStep] using ih (nt / s) d hpos' hd'

theorem blockStep_bounded_by_shape (shape : List Nat) (nt d : Nat)
    (hpos : ∀ s ∈ shape, 0 < s) (hnt : 0 < nt) (hd : d < shape.length) :
    0 ≤ (blockStep shape nt).getD d 0 ∧
      (blockStep shape nt).getD d 0 < shape.getD d 0 ∧
      ∀ i c, i < shape.getD d 0 → c ≤ 1 →
        i + (blockStep shape nt).getD d 0 + c < 2 * shape.getD d 0 := by
  have hb := blockStep_getD_lt shape nt d hpos hd
  exact ⟨Nat.zero_le _, hb, fun i c hi hc => by omega⟩

/-! ### Key creation: fast-path collapse, geometry check, shape mismatch -/

theorem createKey_fast_of (m : ElwiseModule) (g b : Nat × Nat × Nat)
    (args : List ArrArg) (r : PrecalcOut)
    (hp : precalcArrayInfo args (some m.shapeArgIndex) = .ok r)
    (hc : (r.contigmatch || !r.arrayspecificinds) = true)
    (hdi : m.doIndices = false) :
    createKey m g b args =
      .ok (.fast m.initArgs,
        ⟨m.initArgs, r.shape, r.contigmatch, r.arrayspecificinds,
          none, none, none, none, none⟩) := by
  simp only [createKey, hp]
  rw [if_pos (by simp [hc, hdi])]

/-- C2. Fast-path signature collapse: whenever the contiguity-match flag is
true or array-relative indexing is unusable, and per-dimension index
exposure was not requested, `create_key` returns the template identity alone
as the key — independently of the arrays' shapes and strides and of the
launch grid and block — so two such calls yield the same key. -/
theorem createKey_fast_collapse (m : ElwiseModule)
    (g₁ b₁ g₂ b₂ : Nat × Nat × Nat) (args₁ args₂ : List ArrArg) (r₁ r₂ : PrecalcOut)
    (hp₁ : precalcArrayInfo args₁ (some m.shapeArgIndex) = .ok r₁)
    (hp₂ : precalcArrayInfo args₂ (some m.shapeArgIndex) = .ok r₂)
    (hc₁ : r₁.contigmatch = true ∨ r₁.arrayspecificinds = false)
    (hc₂ : r₂.contigmatch = true ∨ r₂.arrayspecificinds = false)
    (hdi : m.doIndices = false) :
    (createKey m g₁ b₁ args₁).map Prod.fst = .ok (.fast m.initArgs) ∧
      (createKey m g₂ b₂ args₂).map Prod.fst = .ok (.fast m.initArgs) ∧
      (createKey m g₁ b₁ args₁).map Prod.fst = (createKey m g₂ b₂ args₂).map Prod.fst := by
  have e₁ := createKey_fast_of m g₁ b₁ args₁ r₁ hp₁ (by rcases hc₁ with h | h <;> simp [h]) hdi
  have e₂ := createKey_fast_of m g₂ b₂ args₂ r₂ hp₂ (by rcases hc₂ with h | h <;> simp [h]) hdi
  rw [e₁, e₂]
  exact ⟨rfl, rfl, rfl⟩

theorem createKey_fast_collapse_witness :
    precalcArrayInfo [cArr] (some modA.shapeArgIndex)
        = .ok ⟨true, true, some [4], [(8, [8])], [cArr]⟩ ∧
      precalcArrayInfo [cArr7] (some modA.shapeArgIndex)
        = .ok ⟨true, true, some [7], [(8, [56])], [cArr7]⟩ ∧
      modA.doIndices = false ∧
      ((createKey modA (1, 1, 1) (1, 1, 1) [cArr]).map Prod.fst
          = .ok (.fast modA.initArgs) ∧
        (createKey modA (4, 1, 1) (64, 1, 1) [cArr7]).map Prod.fst
          = .ok (.fast modA.initArgs) ∧
        (createKey modA (1, 1, 1) (1, 1, 1) [cArr]).map Prod.fst
          = (createKey modA (4, 1, 1) (64, 1, 1) [cArr7]).map Prod.fst) :=
  ⟨by decide, by decide, by decide,
    createKey_fast_collapse modA (1, 1, 1) (1, 1, 1) (4, 1, 1) (64, 1, 1)
      [cArr] [cArr7] ⟨true, true, some [4], [(8, [8])], [cArr]⟩
      ⟨true, true, some [7], [(8, [56])], [cArr7]⟩
      (by decide) (by decide) (by decide) (by decide) (by decide)⟩

/-- C7 (amended). Invalid geometry on the strided path: when the slow path
is taken, a non-unit `grid[1]`, `block[1]` or `block[2]` raises the fatal
geometry error before any planning.  (`grid[2]` is not part of the emitted
check at line 157, see the counterexample.) -/
theorem createKey_invalid_geometry (m : ElwiseModule) (g b : Nat × Nat × Nat)
    (args : List ArrArg) (r : PrecalcOut)
    (hp : precalcArrayInfo args (some m.shapeArgIndex) = .ok r)
    (hslow : ((r.contigmatch || !r.arrayspecificinds) && !m.doIndices) = false)
    (hg : g.2.1 ≠ 1 ∨ b.2.1 ≠ 1 ∨ b.2.2 ≠ 1) :
    createKey m g b args = .error (.invalidGeometry g b) := by
  simp only [createKey, hp]
  rw [if_neg (by simp [hslow]), if_pos hg]

theorem createKey_invalid_geometry_witness :
    precalcArrayInfo [cArr] (some modI.shapeArgIndex)
        = .ok ⟨true, true, some [4], [(8, [8])], [cArr]⟩ ∧
      ((true || !true) && !modI.doIndices) = false ∧
      ((2, 2, 1) : Nat × Nat × Nat).2.1 ≠ 1 ∧
      createKey modI (2, 2, 1) (1, 1, 1) [cArr]
        = .error (.invalidGeometry (2, 2, 1) (1, 1, 1)) :=
  ⟨by decide, by decide, by decide,
    createKey_invalid_geometry modI (2, 2, 1) (1, 1, 1) [cArr]
      ⟨true, true, some [4], [(8, [8])], [cArr]⟩
      (by decide) (by decide) (Or.inl (by decide))⟩

/-- C7 counterexample: the emitted check (line 157) tests `grid[1]`,
`block[1]`, `block[2]` but never `grid[2]`; a slow-path call whose only
non-unit trailing component is the grid's third component is accepted and
key creation proceeds, contrary to the claim that it must raise. -/
theorem grid_z_unchecked_cex :
    isSlowOk (createKey modA (1, 1, 2) (1, 1, 1) [ncArr]) = true := by decide

theorem precalcStep_same_shape (i : Nat) (a : ArrArg) (st : PrecalcState)
    (s0 : List Nat) (strv : List Int)
    (hasi : st.arrayspecificinds = true) (hshp : st.shape = some s0)
    (hsh : a.shape? = some s0) (hstr : a.strides? = some strv) :
    (precalcStep none i a st).map (fun st' => (st'.arrayspecificinds, st'.shape))
      = .ok (true, some s0) := by
  by_cases hcm : st.contigmatch = true
  · simp [precalcStep, hasi, hsh, hstr, getAttr, hcm, hshp, Except.map]
  · have hcm' : st.contigmatch = false := by simpa using hcm
    simp [precalcStep, hasi, hsh, hstr, getAttr, hcm', hshp, Except.map]

theorem precalcStep_mismatch (i : Nat) (a : ArrArg) (st : PrecalcState)
    (s0 sa : List Nat) (strv : List Int)
    (hasi : st.arrayspecificinds = true) (hshp : st.shape = some s0)
    (hsh : a.shape? = some sa) (hstr : a.strides? = some strv) (hne : sa ≠ s0) :
    precalcStep none i a st = .error (.shapeMismatch (some s0) sa) := by
  have hne' : s0 ≠ sa := fun h => hne h.symm
  by_cases hcm : st.contigmatch = true
  · simp [precalcStep, hasi, hsh, hstr, getAttr, hcm, hshp, hne']
  · have hcm' : st.contigmatch = false := by simpa using hcm
    simp [precalcStep, hasi, hsh, hstr, getAttr, hcm', hshp, hne']

theorem precalcStep_first (a : ArrArg) (s0 : List Nat) (strv : List Int)
    (hsh : a.shape? = some s0) (hstr : a.strides? = some strv) :
    (precalcStep none 0 a ⟨true, true, none, none, []⟩).map
        (fun st' => (st'.arrayspecificinds, st'.shape))
      = .ok (true, some s0) := by
  simp [precalcStep, hsh, hstr, getAttr, Except.map]

theorem precalcLoop_mismatch (s0 : List Nat) :
    ∀ (rest : List ArrArg) (i : Nat) (st : PrecalcState),
      st.arrayspecificinds = true → st.shape = some s0 →
      (∀ a ∈ rest, a.shape?.isSome = true ∧ a.strides?.isSome = true) →
      (∃ a ∈ rest, a.shape? ≠ some s0) →
      ∃ c, precalcLoop none i rest st = .error (.shapeMismatch (some s0) c) := by
  intro rest
  induction rest with
  | nil =>
      intro i st _ _ _ hdiff
      obtain ⟨a, ha, _⟩ := hdiff
      exact absurd ha (by simp)
  | cons a rs ih =>
      intro i st hasi hshp hmeta hdiff
      obtain ⟨hsome, hstrsome⟩ := hmeta a (by simp)
      obtain ⟨sa, hsa⟩ := Option.isSome_iff_exists.mp hsome
      obtain ⟨strv, hstrv⟩ := Option.isSome_iff_exists.mp hstrsome
      by_cases heq : sa = s0
      · subst heq
        have hmap := precalcStep_same_shape i a st sa strv hasi hshp hsa hstrv
        cases hst : precalcStep none i a st with
        | error e => rw [hst] at hmap; simp [Except.map] at hmap
        | ok st' =>
            rw [hst] at hmap
            simp only [Except.map, Except.ok.injEq, Prod.mk.injEq] at hmap
            obtain ⟨hasi', hshp'⟩ := hmap
            have hdiff' : ∃ x ∈ rs, x.shape? ≠ some sa := by
              obtain ⟨x, hx, hxne⟩ := hdiff
              rcases List.mem_cons.mp hx with h | h
              · exact absurd hsa (by rw [h] at hxne; exact hxne)
              · exact ⟨x, h, hxne⟩
            obtain ⟨c, hc⟩ := ih (i + 1) st' hasi' hshp'
              (fun x hx => hmeta x (by simp [hx])) hdiff'
            refine ⟨c, ?_⟩
            simp only [precalcLoop, hst]
            exact hc
      · have hstep := precalcStep_mismatch i a st s0 sa strv hasi hshp hsa hstrv heq
        refine ⟨sa, ?_⟩
        simp only [precalcLoop, hstep]

/-- C6 (amended). When layout classification is invoked with
`shape_arg_index = None` and every array argument carries shape and stride
metadata, any argument whose shape differs from the first argument's shape
raises the fatal shape-mismatch error (before the item-stride collection, so
the whole classification fails).  (Through `create_key` this situation never
arises, because the constructor always resolves `shape_arg_index` to a
concrete index — see the counterexample.) -/
theorem precalc_none_shape_mismatch (a0 : ArrArg) (rest : List ArrArg) (s0 : List Nat)
    (h0 : a0.shape? = some s0) (h0s : a0.strides?.isSome = true)
    (hmeta : ∀ a ∈ rest, a.shape?.isSome = true ∧ a.strides?.isSome = true)
    (hdiff : ∃ a ∈ rest, a.shape? ≠ some s0) :
    isShapeMismatch (precalcArrayInfo (a0 :: rest) none) = true := by
  obtain ⟨strv, hstrv⟩ := Option.isSome_iff_exists.mp h0s
  have hmap := precalcStep_first a0 s0 strv h0 hstrv
  cases hst : precalcStep none 0 a0 ⟨true, true, none, none, []⟩ with
  | error e => rw [hst] at hmap; simp [Except.map] at hmap
  | ok st' =>
      rw [hst] at hmap
      simp only [Except.map, Except.ok.injEq, Prod.mk.injEq] at hmap
      obtain ⟨hasi', hshp'⟩ := hmap
      obtain ⟨c, hc⟩ := precalcLoop_mismatch s0 rest 1 st' hasi' hshp' hmeta hdiff
      simp only [precalcArrayInfo, precalcLoop, hst, hc, isShapeMismatch]

theorem precalc_none_shape_mismatch_witness :
    arr44.shape? = some [4, 4] ∧ arr44.strides?.isSome = true ∧
      (∀ a ∈ [arr43], a.shape?.isSome = true ∧ a.strides?.isSome = true) ∧
      (∃ a ∈ [arr43], a.shape? ≠ some [4, 4]) ∧
      isShapeMismatch (precalcArrayInfo [arr44, arr43] none) = true :=
  ⟨by decide, by decide, by decide, by decide,
    precalc_none_shape_mismatch arr44 [arr43] [4, 4]
      (by decide) (by decide) (by decide) (by decide)⟩

/-- C6 counterexample: on the actual call path the constructor resolves
`shape_arg_index` to the first array argument's position (here `0`), so
`create_key` passes a concrete index to the classifier, the `None`-guarded
mismatch check never fires, and a call mixing shapes `(4, 4)` and `(4, 3)`
with no designated shape argument creates a key without raising anything. -/
theorem shape_mismatch_unreachable_cex :
    exceptOk (createKey modA (1, 1, 1) (1, 1, 1) [arr44, arr43]) = true ∧
      isShapeMismatch (createKey modA (1, 1, 1) (1, 1, 1) [arr44, arr43]) = false := by
  exact ⟨by decide, by decide⟩

/-- C8. The claim's graceful-degradation loop behaviour does hold (the flag
drops to false and the remaining arguments are skipped), but the
classification as a whole then crashes: line 139 unconditionally reads
`arg.itemsize` and `arg.strides` of every array argument, which a
metadata-less bare pointer does not have, so `_precalc_array_info` raises
`AttributeError` instead of completing — contradicting the code's own
comment ("caller is on their own") and the spec. -/
theorem precalc_bare_pointer_attrError :
    (precalcLoop (some 0) 0 [cArr, bareArr] ⟨true, true, none, none, []⟩).map
        (fun st => (st.contigmatch, st.arrayspecificinds)) = .ok (true, false) ∧
      precalcArrayInfo [cArr, bareArr] (some 0) = .error (.attributeError "itemsize") := by
  exact ⟨by decide, by decide⟩

/-- C9. The dimension-ordering check in `__init__` is degenerate: the
`assert` at line 81 asserts a two-element tuple `(order in 'CFK', message)`,
which is truthy regardless of the membership test, so construction never
fails with an `AssertionError` for any `order` value whatsoever. -/
theorem order_assert_degenerate (arguments : List ArgDescr)
    (operation funcname preamble loopPrep afterLoop : String)
    (doRange doIndices : Bool) (shapeArgIndex : Option Nat)
    (arrayArgInds : Option (List Nat)) (order : String) (debug : Bool) :
    isAssertErr (mkElwiseModule arguments operation funcname preamble loopPrep afterLoop
      doRange doIndices shapeArgIndex arrayArgInds order debug) = false := by
  simp only [mkElwiseModule]
  rw [if_neg (by simp [pyTruthyTuple, orderAssertTuple])]
  split <;> rfl

theorem blockStep_bounded_by_shape_witness :
    (∀ s ∈ [3, 4], 0 < s) ∧ 0 < 5 ∧ 0 < [3, 4].length ∧
      (0 ≤ (blockStep [3, 4] 5).getD 0 0 ∧
        (blockStep [3, 4] 5).getD 0 0 < [3, 4].getD 0 0 ∧
        ∀ i c, i < [3, 4].getD 0 0 → c ≤ 1 →
          i + (blockStep [3, 4] 5).getD 0 0 + c < 2 * [3, 4].getD 0 0) :=
  ⟨by decide, by decide, by decide,
    blockStep_bounded_by_shape [3, 4] 5 0 (by decide) (by decide) (by decide)⟩

/-! ### Determinism of source generation (C3) -/

theorem createKey_ok_inv (m : ElwiseModule) (g b : Nat × Nat × Nat) (args : List ArrArg)
    (k : EKey) (p : Precalc) (h : createKey m g b args = .ok (k, p)) :
    (k = .fast m.initArgs ∧ p.initArgs = m.initArgs ∧ p.arrayitemstrides = none) ∨
      (k = .slow p ∧ p.initArgs = m.initArgs ∧ p.grid = some g ∧ p.block = some b) := by
  unfold createKey at h
  cases hpre : precalcArrayInfo args (some m.shapeArgIndex) with
  | error e => rw [hpre] at h; exact absurd h (by simp)
  | ok r =>
      rw [hpre] at h
      dsimp only at h
      by_cases hfast : ((r.contigmatch || !r.arrayspecificinds) && !m.doIndices) = true
      · rw [if_pos hfast] at h
        simp only [Except.ok.injEq, Prod.mk.injEq] at h
        obtain ⟨hk, hp⟩ := h
        exact Or.inl ⟨hk.symm, by rw [← hp], by rw [← hp]⟩
      · rw [if_neg hfast] at h
        by_cases hgeo : g.2.1 ≠ 1 ∨ b.2.1 ≠ 1 ∨ b.2.2 ≠ 1
        · rw [if_pos hgeo] at h; exact absurd h (by simp)
        · rw [if_neg hgeo] at h
          cases hsh : r.shape with
          | none => rw [hsh] at h; exact absurd h (by simp)
          | some sh =>
              rw [hsh] at h
              dsimp only at h
              cases hdr : computeDoReverse m r.updatedArgs sh.length with
              | error e => rw [hdr] at h; exact absurd h (by simp)
              | ok doRev =>
                  rw [hdr] at h
                  dsimp only at h
                  simp only [Except.ok.injEq, Prod.mk.injEq] at h
                  obtain ⟨hk, hp⟩ := h
                  refine Or.inr ⟨?_, ?_, ?_, ?_⟩
                  · rw [← hk, ← hp]
                  · rw [← hp]
                  · rw [← hp]
                  · rw [← hp]

theorem createSource_congr (m₁ m₂ : ElwiseModule) (p : Precalc) (g b : Nat × Nat × Nat)
    (hia : m₁.initArgs = m₂.initArgs) (hr : m₁.doRange = m₂.doRange)
    (hi : m₁.doIndices = m₂.doIndices) (hd : m₁.debug = m₂.debug)
    (hn : m₁.arrayArgNames = m₂.arrayArgNames) :
    createSource m₁ p g b = createSource m₂ p g b := by
  obtain ⟨ia₁, dr₁, di₁, dbg₁, ord₁, names₁, sai₁⟩ := m₁
  obtain ⟨ia₂, dr₂, di₂, dbg₂, ord₂, names₂, sai₂⟩ := m₂
  dsimp only at hia hr hi hd hn
  subst hia; subst hr; subst hi; subst hd; subst hn
  rfl

theorem createSource_gb_indep (m : ElwiseModule) (p : Precalc)
    (g₁ b₁ g₂ b₂ : Nat × Nat × Nat) (hais : p.arrayitemstrides = none) :
    createSource m p g₁ b₁ = createSource m p g₂ b₂ := by
  by_cases hc : (p.contigmatch && !m.doIndices) = true
  · simp only [createSource]
    rw [if_pos hc, if_pos hc]
  · simp only [createSource]
    rw [if_neg hc, if_neg hc, hais]

/-- C3 (amended). Determinism of source generation relative to the
Signature *and* the module flags the key omits: two calls with equal
`create_key` keys, equal precalc tuples and equal `do_range`, `do_indices`,
`debug` flags and array-argument name selection produce identical source.
(The key alone does not suffice — see the counterexample: `do_range` changes
the emitted loop but is absent from the key.) -/
theorem createSource_determined_by_key_and_flags
    (m₁ m₂ : ElwiseModule) (g₁ b₁ g₂ b₂ : Nat × Nat × Nat)
    (args₁ args₂ : List ArrArg) (k : EKey) (p₁ p₂ : Precalc)
    (h₁ : createKey m₁ g₁ b₁ args₁ = .ok (k, p₁))
    (h₂ : createKey m₂ g₂ b₂ args₂ = .ok (k, p₂))
    (hp : p₁ = p₂) (hr : m₁.doRange = m₂.doRange) (hi : m₁.doIndices = m₂.doIndices)
    (hd : m₁.debug = m₂.debug) (hn : m₁.arrayArgNames = m₂.arrayArgNames) :
    createSource m₁ p₁ g₁ b₁ = createSource m₂ p₂ g₂ b₂ := by
  subst hp
  rcases createKey_ok_inv m₁ g₁ b₁ args₁ k p₁ h₁ with ⟨hk₁, hia₁, hais₁⟩ | ⟨hk₁, hia₁, hg₁, hb₁⟩ <;>
    rcases createKey_ok_inv m₂ g₂ b₂ args₂ k p₁ h₂ with ⟨hk₂, hia₂, hais₂⟩ | ⟨hk₂, hia₂, hg₂, hb₂⟩
  · -- both fast
    have hia : m₁.initArgs = m₂.initArgs := by
      rw [hk₁] at hk₂; injection hk₂
    calc createSource m₁ p₁ g₁ b₁
        = createSource m₂ p₁ g₁ b₁ := createSource_congr m₁ m₂ p₁ g₁ b₁ hia hr hi hd hn
      _ = createSource m₂ p₁ g₂ b₂ := createSource_gb_indep m₂ p₁ g₁ b₁ g₂ b₂ hais₁
  · exact absurd (hk₁.symm.trans hk₂) (by simp)
  · exact absurd (hk₁.symm.trans hk₂) (by simp)
  · -- both slow
    have hia : m₁.initArgs = m₂.initArgs := hia₁.symm.trans hia₂
    have hg : g₁ = g₂ := by
      have := hg₁.symm.trans hg₂; injection this
    have hb : b₁ = b₂ := by
      have := hb₁.symm.trans hb₂; injection this
    subst hg; subst hb
    exact createSource_congr m₁ m₂ p₁ g₁ b₁ hia hr hi hd hn

theorem createSource_determined_witness :
    createKey modA (1, 1, 1) (1, 1, 1) [cArr] = .ok (.fast iaEx, pFastEx) ∧
      createKey modA (4, 1, 1) (64, 1, 1) [cArr] = .ok (.fast iaEx, pFastEx) ∧
      createSource modA pFastEx (1, 1, 1) (1, 1, 1)
        = createSource modA pFastEx (4, 1, 1) (64, 1, 1) :=
  ⟨by decide, by decide,
    createSource_determined_by_key_and_flags modA modA (1, 1, 1) (1, 1, 1) (4, 1, 1)
      (64, 1, 1) [cArr] [cArr] (.fast iaEx) pFastEx pFastEx
      (by decide) (by decide) rfl rfl rfl rfl rfl⟩

/-- C3 counterexample: two modules built from identical construction
arguments but different `do_range` values produce equal `create_key` results
on the same contiguous call, yet emit different sources (the index variable
is `unsigned` without `do_range` and `long` with it, and the loop shape
differs) — so the emitted source is not a function of the Signature alone. -/
theorem source_not_key_determined_cex :
    (createKey modA (1, 1, 1) (1, 1, 1) [cArr]).map Prod.fst
        = (createKey modB (1, 1, 1) (1, 1, 1) [cArr]).map Prod.fst ∧
      createKey modA (1, 1, 1) (1, 1, 1) [cArr] = .ok (.fast iaEx, pFastEx) ∧
      createKey modB (1, 1, 1) (1, 1, 1) [cArr] = .ok (.fast iaEx, pFastEx) ∧
      fastIndtypeOf (createSource modA pFastEx (1, 1, 1) (1, 1, 1)) = some "unsigned" ∧
      fastIndtypeOf (createSource modB pFastEx (1, 1, 1) (1, 1, 1)) = some "long" := by
  exact ⟨by decide, by decide, by decide, by decide, by decide⟩

/-! ### Stride deduplication (C4) -/

theorem findInfoRefAux_append (es : List Int) (x : ArgInfo) :
    ∀ (l : List ArgInfo) (i : Nat) (r : Option Nat),
      findInfoRefAux es i r (l ++ [x])
        = if x.elemstrides = es then some (i + l.length) else findInfoRefAux es i r l := by
  intro l
  induction l with
  | nil => intro i r; simp [findInfoRefAux]
  | cons y ys ih =>
      intro i r
      have h0 : findInfoRefAux es i r ((y :: ys) ++ [x])
          = findInfoRefAux es (i + 1) (if y.elemstrides = es then some i else r) (ys ++ [x]) := rfl
      have h1 : findInfoRefAux es i r (y :: ys)
          = findInfoRefAux es (i + 1) (if y.elemstrides = es then some i else r) ys := rfl
      rw [h0, ih, h1]
      by_cases hx : x.elemstrides = es
      · rw [if_pos hx, if_pos hx]
        congr 1
        simp
        omega
      · rw [if_neg hx, if_neg hx]

theorem findInfoRef_append (acc : List ArgInfo) (x : ArgInfo) (es : List Int) :
    findInfoRef (acc ++ [x]) es
      = if x.elemstrides = es then some acc.length else findInfoRef acc es := by
  unfold findInfoRef
  rw [findInfoRefAux_append]
  simp

theorem esAt_append_lt (l : List ArgInfo) (x : ArgInfo) (j : Nat) (h : j < l.length) :
    esAt (l ++ [x]) j = esAt l j := by
  unfold esAt
  rw [List.getD_append _ _ _ _ h]

theorem esAt_append_len (l : List ArgInfo) (x : ArgInfo) :
    esAt (l ++ [x]) l.length = x.elemstrides := by
  unfold esAt
  rw [List.getD_append_right _ _ _ _ (le_refl _)]
  simp

theorem refAt_append_lt (l : List ArgInfo) (x : ArgInfo) (j : Nat) (h : j < l.length) :
    refAt (l ++ [x]) j = refAt l j := by
  unfold refAt
  rw [List.getD_append _ _ _ _ h]

theorem refAt_append_len (l : List ArgInfo) (x : ArgInfo) :
    refAt (l ++ [x]) l.length = x.inforef := by
  unfold refAt
  rw [List.getD_append_right _ _ _ _ (le_refl _)]
  simp

theorem findInfoRef_some (acc : List ArgInfo) (es : List Int) :
    ∀ j, findInfoRef acc es = some j → j < acc.length ∧ esAt acc j = es := by
  induction acc using List.reverseRecOn with
  | nil => intro j h; simp [findInfoRef, findInfoRefAux] at h
  | append_singleton l x ih =>
      intro j h
      rw [findInfoRef_append] at h
      by_cases hx : x.elemstrides = es
      · rw [if_pos hx] at h
        injection h with h
        subst h
        refine ⟨by simp, ?_⟩
        rw [esAt_append_len]
        exact hx
      · rw [if_neg hx] at h
        obtain ⟨hlt, hes⟩ := ih j h
        refine ⟨by simp; omega, ?_⟩
        rw [esAt_append_lt _ _ _ hlt]
        exact hes

theorem findInfoRef_none (acc : List ArgInfo) (es : List Int) :
    findInfoRef acc es = none → ∀ j, j < acc.length → esAt acc j ≠ es := by
  induction acc using List.reverseRecOn with
  | nil => intro _ j hj; simp at hj
  | append_singleton l x ih =>
      intro h j hj
      rw [findInfoRef_append] at h
      by_cases hx : x.elemstrides = es
      · rw [if_pos hx] at h; exact absurd h (by simp)
      · rw [if_neg hx] at h
        simp only [List.length_append, List.length_cons, List.length_nil] at hj
        by_cases hjl : j < l.length
        · rw [esAt_append_lt _ _ _ hjl]
          exact ih h j hjl
        · have : j = l.length := by omega
          subst this
          rw [esAt_append_len]
          exact hx

theorem infosWF_append (acc : List ArgInfo) (x : ArgInfo)
    (hwf : InfosWF acc) (hx : x.inforef = findInfoRef acc x.elemstrides) :
    InfosWF (acc ++ [x]) := by
  intro i hi
  simp only [List.length_append, List.length_cons, List.length_nil] at hi
  by_cases hlt : i < acc.length
  · constructor
    · intro j hj
      rw [refAt_append_lt _ _ _ hlt] at hj
      obtain ⟨hji, hes⟩ := (hwf i hlt).1 j hj
      refine ⟨hji, ?_⟩
      rw [esAt_append_lt _ _ _ (lt_trans hji hlt), esAt_append_lt _ _ _ hlt]
      exact hes
    · intro hnone j hji
      rw [refAt_append_lt _ _ _ hlt] at hnone
      rw [esAt_append_lt _ _ _ (lt_trans hji hlt), esAt_append_lt _ _ _ hlt]
      exact (hwf i hlt).2 hnone j hji
  · have hieq : i = acc.length := by omega
    subst hieq
    constructor
    · intro j hj
      rw [refAt_append_len, hx] at hj
      obtain ⟨hjlen, hes⟩ := findInfoRef_some acc _ j hj
      refine ⟨hjlen, ?_⟩
      rw [esAt_append_lt _ _ _ hjlen, esAt_append_len]
      exact hes
    · intro hnone j hj
      rw [refAt_append_len, hx] at hnone
      rw [esAt_append_lt _ _ _ hj, esAt_append_len]
      exact findInfoRef_none acc _ hnone j hj

theorem buildArgInfos_wf (doRev : Bool) (ndim : Nat) (sh bs : List Nat) :
    ∀ (items : List (String × Nat × List Int)) (acc : List ArgInfo),
      InfosWF acc → InfosWF (buildArgInfos doRev ndim sh bs items acc) := by
  intro items
  induction items with
  | nil => intro acc h; exact h
  | cons t rest ih =>
      intro acc h
      obtain ⟨name, isz, strides⟩ := t
      exact ih _ (infosWF_append acc _ h rfl)

theorem elwiseArgInfos_wf (doRev : Bool) (ndim : Nat) (sh bs : List Nat)
    (items : List (String × Nat × List Int)) :
    InfosWF (elwiseArgInfos doRev ndim sh bs items) :=
  buildArgInfos_wf doRev ndim sh bs items [] (fun i hi => by simp at hi)

theorem resolveIdx_fuel (infos : List ArgInfo) (hwf : InfosWF infos) :
    ∀ i, i < infos.length → ∀ fuel, i < fuel →
      resolveIdx infos fuel i = resolveIdx infos (i + 1) i := by
  intro i
  induction i using Nat.strong_induction_on with
  | _ i ih =>
      intro hi fuel hfuel
      cases fuel with
      | zero => omega
      | succ f =>
          simp only [resolveIdx]
          cases href : (infos.getD i default).inforef with
          | none => rfl
          | some j =>
              dsimp only
              obtain ⟨hji, _⟩ := (hwf i hi).1 j href
              have hjlen : j < infos.length := lt_trans hji hi
              have h1 : resolveIdx infos f j = resolveIdx infos (j + 1) j :=
                ih j hji hjlen f (by omega)
              have h2 : resolveIdx infos i j = resolveIdx infos (j + 1) j :=
                ih j hji hjlen i (by omega)
              rw [h1, h2]

theorem canonOf_spec (infos : List ArgInfo) (hwf : InfosWF infos) :
    ∀ i, i < infos.length →
      canonOf infos i ≤ i ∧ canonOf infos i < infos.length ∧
        esAt infos (canonOf infos i) = esAt infos i ∧
        refAt infos (canonOf infos i) = none := by
  intro i
  induction i using Nat.strong_induction_on with
  | _ i ih =>
      intro hi
      cases href : (infos.getD i default).inforef with
      | none =>
          have hcan : canonOf infos i = i := by
            unfold canonOf
            simp only [resolveIdx]
            rw [href]
          rw [hcan]
          exact ⟨le_refl i, hi, rfl, href⟩
      | some j =>
          obtain ⟨hji, hes⟩ := (hwf i hi).1 j href
          have hjlen : j < infos.length := lt_trans hji hi
          have hcan : canonOf infos i = canonOf infos j := by
            unfold canonOf
            have h1 : resolveIdx infos (i + 1) i = resolveIdx infos i j := by
              simp only [resolveIdx]
              rw [href]
            rw [h1]
            exact resolveIdx_fuel infos hwf j hjlen i (by omega)
          rw [hcan]
          obtain ⟨hle, hlen, hesj, hrefj⟩ := ih j hji hjlen
          exact ⟨by omega, hlen, by rw [hesj, hes], hrefj⟩

theorem canonical_unique (infos : List ArgInfo) (hwf : InfosWF infos)
    (i j : Nat) (hi : i < infos.length) (hj : j < infos.length)
    (hri : refAt infos i = none) (hrj : refAt infos j = none)
    (hes : esAt infos i = esAt infos j) : i = j := by
  rcases lt_trichotomy i j with h | h | h
  · exact absurd hes ((hwf j hj).2 hrj i h)
  · exact h
  · exact absurd hes.symm ((hwf i hi).2 hri j h)

/-- C4 (amended). Stride deduplication: among the `arrayarginfos` of a
slow-path call, exactly one entry per distinct (ordered) element-stride
vector owns an index variable; every alias slot points to an earlier entry
with the same stride vector (the *most recent* one, which may itself be an
alias — see the counterexample); following the alias chain from any two
entries with equal stride vectors reaches the same owning entry; and equal
stride vectors give identical per-iteration flat offsets at every flat
position. -/
theorem dedup_canonical_resolution (doRev : Bool) (ndim : Nat) (sh bs : List Nat)
    (items : List (String × Nat × List Int)) (i j : Nat)
    (hi : i < (elwiseArgInfos doRev ndim sh bs items).length)
    (hj : j < (elwiseArgInfos doRev ndim sh bs items).length)
    (hes : esAt (elwiseArgInfos doRev ndim sh bs items) i
        = esAt (elwiseArgInfos doRev ndim sh bs items) j) :
    canonOf (elwiseArgInfos doRev ndim sh bs items) i
        = canonOf (elwiseArgInfos doRev ndim sh bs items) j ∧
      refAt (elwiseArgInfos doRev ndim sh bs items)
        (canonOf (elwiseArgInfos doRev ndim sh bs items) i) = none ∧
      esAt (elwiseArgInfos doRev ndim sh bs items)
          (canonOf (elwiseArgInfos doRev ndim sh bs items) i)
        = esAt (elwiseArgInfos doRev ndim sh bs items) i ∧
      (∀ t, refAt (elwiseArgInfos doRev ndim sh bs items) i = some t →
        t < i ∧ esAt (elwiseArgInfos doRev ndim sh bs items) t
          = esAt (elwiseArgInfos doRev ndim sh bs items) i) ∧
      (refAt (elwiseArgInfos doRev ndim sh bs items) i = none →
        refAt (elwiseArgInfos doRev ndim sh bs items) j = none → i = j) ∧
      (∀ pos, offsetOf (esAt (elwiseArgInfos doRev ndim sh bs items) i)
          (directIndex sh pos)
        = offsetOf (esAt (elwiseArgInfos doRev ndim sh bs items) j)
          (directIndex sh pos)) := by
  have hwf := elwiseArgInfos_wf doRev ndim sh bs items
  obtain ⟨hle₁, hlen₁, hes₁, href₁⟩ := canonOf_spec _ hwf i hi
  obtain ⟨hle₂, hlen₂, hes₂, href₂⟩ := canonOf_spec _ hwf j hj
  have hcc : canonOf (elwiseArgInfos doRev ndim sh bs items) i
      = canonOf (elwiseArgInfos doRev ndim sh bs items) j := by
    refine canonical_unique _ hwf _ _ hlen₁ hlen₂ href₁ href₂ ?_
    rw [hes₁, hes₂, hes]
  refine ⟨hcc, href₁, hes₁, ?_, ?_, ?_⟩
  · intro t ht
    exact (hwf i hi).1 t ht
  · intro hri hrj
    exact canonical_unique _ hwf i j hi hj hri hrj hes
  · intro pos
    rw [hes]

theorem dedup_canonical_resolution_witness :
    1 < (elwiseArgInfos false 1 [4] [1]
        [("a", 1, [1]), ("b", 1, [1]), ("c", 1, [1])]).length ∧
      2 < (elwiseArgInfos false 1 [4] [1]
        [("a", 1, [1]), ("b", 1, [1]), ("c", 1, [1])]).length ∧
      esAt (elwiseArgInfos false 1 [4] [1]
          [("a", 1, [1]), ("b", 1, [1]), ("c", 1, [1])]) 1
        = esAt (elwiseArgInfos false 1 [4] [1]
          [("a", 1, [1]), ("b", 1, [1]), ("c", 1, [1])]) 2 ∧
      canonOf (elwiseArgInfos false 1 [4] [1]
          [("a", 1, [1]), ("b", 1, [1]), ("c", 1, [1])]) 1
        = canonOf (elwiseArgInfos false 1 [4] [1]
          [("a", 1, [1]), ("b", 1, [1]), ("c", 1, [1])]) 2 ∧
      refAt (elwiseArgInfos false 1 [4] [1]
          [("a", 1, [1]), ("b", 1, [1]), ("c", 1, [1])])
        (canonOf (elwiseArgInfos false 1 [4] [1]
          [("a", 1, [1]), ("b", 1, [1]), ("c", 1, [1])]) 1) = none :=
  ⟨by decide, by decide, by decide,
    (dedup_canonical_resolution false 1 [4] [1]
      [("a", 1, [1]), ("b", 1, [1]), ("c", 1, [1])] 1 2
      (by decide) (by decide) (by decide)).1,
    (dedup_canonical_resolution false 1 [4] [1]
      [("a", 1, [1]), ("b", 1, [1]), ("c", 1, [1])] 1 2
      (by decide) (by decide) (by decide)).2.1⟩

/-- C4 counterexample: with three arguments of identical stride vectors,
the third argument's emitted alias (`#define c_i b_i`) targets position 1,
whose own entry is itself an alias (`inforef = some 0`) — the alias target
is the most recent equal-stride argument, not an owning (canonical) entry,
contrary to the claim that the later argument is emitted as an alias of an
earlier *canonical* one. -/
theorem dedup_alias_chain_cex :
    refAt (elwiseArgInfos false 1 [4] [1]
        [("a", 1, [1]), ("b", 1, [1]), ("c", 1, [1])]) 2 = some 1 ∧
      refAt (elwiseArgInfos false 1 [4] [1]
        [("a", 1, [1]), ("b", 1, [1]), ("c", 1, [1])]) 1 = some 0 := by
  exact ⟨by decide, by decide⟩
